import Mathlib

/-!
Shallow embedding of `data_types/src/schema.rs` (IOx typed schema layer):
the InfluxDB column-role model, the metadata codec, schema validation
(`try_from_arrow`), merging (`try_merge`), sorting (`sort_fields_by_name`)
and iteration, together with theorems about the specified properties.
-/

deriving instance DecidableEq for Except

namespace Iox

/-- Physical (arrow) data types. The arrow `DataType` enum is much larger;
we embed the variants this module's code and tests touch, which is enough to
express every check (`valid_arrow_type` is exact equality of variants). -/
inductive ArrowDataType where
  | Float64
  | Int64
  | UInt64
  | Utf8
  | Boolean
  | Int16
  | Int8
  deriving DecidableEq

/-- `InfluxFieldType` from schema.rs: the five scalar field kinds. -/
inductive InfluxFieldType where
  | Float
  | Integer
  | UInteger
  | String
  | Boolean
  deriving DecidableEq

/-- `impl From<InfluxFieldType> for ArrowDataType`. -/
def InfluxFieldType.toArrowDataType : InfluxFieldType → ArrowDataType
  | .Float => .Float64
  | .Integer => .Int64
  | .UInteger => .UInt64
  | .String => .Utf8
  | .Boolean => .Boolean

/-- `InfluxColumnType` from schema.rs: Tag, Field(kind) or Timestamp. -/
inductive InfluxColumnType where
  | Tag
  | Field (t : InfluxFieldType)
  | Timestamp
  deriving DecidableEq

/-- `impl From<&InfluxColumnType> for ArrowDataType`: the canonical physical
type of a column role. -/
def InfluxColumnType.toArrowDataType : InfluxColumnType → ArrowDataType
  | .Tag => .Utf8
  | .Field t => t.toArrowDataType
  | .Timestamp => .Int64

/-- `InfluxColumnType::valid_arrow_type`: true iff `dataType` equals the
role's canonical (default) arrow type exactly. -/
def InfluxColumnType.valid_arrow_type (t : InfluxColumnType) (dataType : ArrowDataType) : Bool :=
  dataType = t.toArrowDataType

/-- `impl From<&InfluxColumnType> for &'static str`: serialization of a column
role to the string token stored in arrow metadata. -/
def InfluxColumnType.toStr : InfluxColumnType → String
  | .Tag => "iox::column_type::tag"
  | .Field .Float => "iox::column_type::field::float"
  | .Field .Integer => "iox::column_type::field::integer"
  | .Field .UInteger => "iox::column_type::field::uinteger"
  | .Field .String => "iox::column_type::field::string"
  | .Field .Boolean => "iox::column_type::field::boolean"
  | .Timestamp => "iox::column_type::timestamp"

/-- `impl TryFrom<&str> for InfluxColumnType`: deserialization from the
metadata string; any string other than the fixed tokens yields no role
(the Rust code returns `Err`, embedded as `none`). -/
def InfluxColumnType.tryFromStr (s : String) : Option InfluxColumnType :=
  if s = "iox::column_type::tag" then some .Tag
  else if s = "iox::column_type::field::float" then some (.Field .Float)
  else if s = "iox::column_type::field::integer" then some (.Field .Integer)
  else if s = "iox::column_type::field::uinteger" then some (.Field .UInteger)
  else if s = "iox::column_type::field::string" then some (.Field .String)
  else if s = "iox::column_type::field::boolean" then some (.Field .Boolean)
  else if s = "iox::column_type::timestamp" then some .Timestamp
  else none

/-- Arrow `Field`: a named, typed, nullable column descriptor. -/
structure ArrowField where
  name : String
  dataType : ArrowDataType
  nullable : Bool
  deriving DecidableEq

/-- Arrow `Schema`: an ordered list of fields plus a string-keyed metadata
map (the Rust `HashMap<String, String>`, embedded as an association list
queried with `List.lookup`). -/
structure ArrowSchema where
  fields : List ArrowField
  metadata : List (String × String)
  deriving DecidableEq

/-- `iox::measurement::name`, the reserved metadata key for the measurement. -/
def MEASUREMENT_METADATA_KEY : String := "iox::measurement::name"

/-- Decode the column role recorded in a metadata map for a column name:
look the name up and try to deserialize the value
(`metadata().get(name)` followed by `try_into().ok()`). -/
def decodeRole (metadata : List (String × String)) (name : String) : Option InfluxColumnType :=
  (metadata.lookup name).bind InfluxColumnType.tryFromStr

/-- The `Schema` wrapper struct: all data lives on the inner arrow schema. -/
structure Schema where
  inner : ArrowSchema
  deriving DecidableEq

/-- `Schema::measurement`: the measurement name stored in metadata, if any. -/
def Schema.measurement (s : Schema) : Option String :=
  s.inner.metadata.lookup MEASUREMENT_METADATA_KEY

/-- `Schema::len`: number of columns. -/
def Schema.len (s : Schema) : Nat :=
  s.inner.fields.length

/-- Role decoding relative to a schema (the metadata lookup used by
`Schema::field`). -/
def Schema.columnRole (s : Schema) (name : String) : Option InfluxColumnType :=
  decodeRole s.inner.metadata name

/-- `Schema::field`: the decoded role (if any) and the arrow field at `idx`.
The Rust code panics for `idx ≥ len`, so the embedding takes the bound as a
hypothesis. -/
def Schema.field (s : Schema) (idx : Nat) (h : idx < s.len) :
    Option InfluxColumnType × ArrowField :=
  let f := s.inner.fields.get ⟨idx, h⟩
  (s.columnRole f.name, f)

/-- Name-based lookup in `self` used by `try_merge`
(`find_index_of(name)` followed by `self.field(idx)`): the first field of
the schema carrying the given name. -/
def Schema.findField (s : Schema) (name : String) : Option ArrowField :=
  s.inner.fields.find? (fun ef => ef.name == name)

/-- Schema creation / validation errors (`enum Error` in schema.rs), with
the structured context each variant carries. -/
inductive Error where
  | BothFieldAndTag (column_name : String)
  | DuplicateColumnName (column_name : String)
  | IncompatibleMetadata (column_name : String) (influxdb_column_type : InfluxColumnType)
      (actual_type : ArrowDataType)
  | InvalidTimestamp (column_name : String) (existing_type : InfluxColumnType)
  | TryMergeDifferentMeasurementNames (existing_measurement new_measurement : String)
  | TryMergeBadColumnType (field_name : String)
      (existing_influx_column_type influx_column_type : Option InfluxColumnType)
  | TryMergeBadArrowType (field_name : String)
      (existing_data_type new_data_type : ArrowDataType)
  | TryMergeBadNullability (field_name : String)
      (existing_nullability new_nullability : Bool)
  | MergingSchemas (source : String)
  deriving DecidableEq

/-- The duplicate scan of `try_from_arrow`: walk the names in positional
order keeping the set of names seen so far, and report the first name that
was already seen. -/
def firstDupAux (seen : List String) : List String → Option String
  | [] => none
  | n :: rest => if n ∈ seen then some n else firstDupAux (n :: seen) rest

/-- First duplicated column name in positional order, if any. -/
def firstDup (names : List String) : Option String :=
  firstDupAux [] names

/-- The metadata-compatibility loop of `try_from_arrow`: for each field in
order, if its metadata decodes to a role, the field's actual type must be a
valid arrow type for that role. -/
def checkMetadata (metadata : List (String × String)) : List ArrowField → Except Error Unit
  | [] => .ok ()
  | f :: rest =>
    match decodeRole metadata f.name with
    | some t =>
      if t.valid_arrow_type f.dataType then checkMetadata metadata rest
      else .error (.IncompatibleMetadata f.name t f.dataType)
    | none => checkMetadata metadata rest

/-- `Schema::try_from_arrow`: validate uniqueness of all column names
first, then metadata/type compatibility for each column in order. -/
def Schema.try_from_arrow (inner : ArrowSchema) : Except Error Schema :=
  match firstDup (inner.fields.map ArrowField.name) with
  | some n => .error (.DuplicateColumnName n)
  | none =>
    match checkMetadata inner.metadata inner.fields with
    | .error e => .error e
    | .ok _ => .ok ⟨inner⟩

/-- The field-column loop of `new_from_parts`: insert each field column's
role token into the metadata, failing when the name is already assigned
(i.e. was in the tag set). -/
def addFieldCols (metadata : List (String × String)) :
    List (String × InfluxColumnType) → Except Error (List (String × String))
  | [] => .ok metadata
  | (column_name, t) :: rest =>
    if (metadata.lookup column_name).isSome then .error (.BothFieldAndTag column_name)
    else addFieldCols (metadata ++ [(column_name, t.toStr)]) rest

/-- The timestamp-column step of `new_from_parts`: the timestamp name must
not collide with an already-assigned role, else `InvalidTimestamp` carrying
the existing decoded role (the Rust code decodes it with `.unwrap()`; every
value inserted before this point is a valid token, so the decode-failure
branch is unreachable). -/
def timeColCheck (md1 : List (String × String)) :
    Option String → Except Error (List (String × String))
  | some column_name =>
    match md1.lookup column_name with
    | some existing =>
      match InfluxColumnType.tryFromStr existing with
      | some existing_type => .error (.InvalidTimestamp column_name existing_type)
      | none => .error (.InvalidTimestamp column_name .Timestamp)
    | none => .ok (md1 ++ [(column_name, InfluxColumnType.Timestamp.toStr)])
  | none => .ok md1

/-- The measurement step of `new_from_parts`: record the measurement name
under the reserved key when present. -/
def addMeasurement (md : List (String × String)) : Option String → List (String × String)
  | some m => md ++ [(MEASUREMENT_METADATA_KEY, m)]
  | none => md

/-- `Schema::new_from_parts` (the builder path): assemble the metadata map
from the tag set, field map, timestamp column and measurement, then funnel
into `try_from_arrow` for the duplicate-name and type-compatibility
checks. -/
def Schema.new_from_parts (measurement : Option String) (fields : List ArrowField)
    (tag_cols : List String) (field_cols : List (String × InfluxColumnType))
    (time_col : Option String) : Except Error Schema :=
  match addFieldCols (tag_cols.map fun tag_name => (tag_name, InfluxColumnType.Tag.toStr))
      field_cols with
  | .error e => .error e
  | .ok md1 =>
    match timeColCheck md1 time_col with
    | .error e => .error e
    | .ok md2 => Schema.try_from_arrow ⟨fields, addMeasurement md2 measurement⟩

/-- `SchemaIter`: a positional iterator over a schema's columns. -/
structure SchemaIter where
  schema : Schema
  idx : Nat

/-- `SchemaIter::next`: yield `schema.field(idx)` while `idx < len`. -/
def SchemaIter.next (it : SchemaIter) : Option ((Option InfluxColumnType × ArrowField) × SchemaIter) :=
  if h : it.idx < it.schema.len then
    some (it.schema.field it.idx h, ⟨it.schema, it.idx + 1⟩)
  else
    none

/-- Drain an iterator into a list (fuel-indexed; `next` advances `idx`, so
`len - idx` fuel drains it completely). -/
def SchemaIter.collect : Nat → SchemaIter → List (Option InfluxColumnType × ArrowField)
  | 0, _ => []
  | fuel + 1, it =>
    match it.next with
    | none => []
    | some (x, it') => SchemaIter.collect fuel it' |>.cons x

/-- The full sequence yielded by `Schema::iter()`. -/
def Schema.iterList (s : Schema) : List (Option InfluxColumnType × ArrowField) :=
  SchemaIter.collect s.len ⟨s, 0⟩

/-- Modelled from the spec: field union of the generic (arrow) schema
collaborator's merge — insert one field into an accumulated list,
deduplicating by name (the nullability of a duplicate is or-ed, per the
collaborator's field-merge contract; a type conflict is a structural
failure). -/
def mergeFieldInto : List ArrowField → ArrowField → Except String (List ArrowField)
  | [], f => .ok [f]
  | g :: rest, f =>
    if g.name = f.name then
      if g.dataType = f.dataType then
        .ok (⟨g.name, g.dataType, g.nullable || f.nullable⟩ :: rest)
      else .error "incompatible field types"
    else
      match mergeFieldInto rest f with
      | .ok rest2 => .ok (g :: rest2)
      | .error e => .error e

/-- Modelled from the spec: union the second schema's fields into the first
schema's field list, preserving first-seen order. -/
def mergeAllFields (acc : List ArrowField) : List ArrowField → Except String (List ArrowField)
  | [] => .ok acc
  | f :: fs =>
    match mergeFieldInto acc f with
    | .ok acc2 => mergeAllFields acc2 fs
    | .error e => .error e

/-- Modelled from the spec: union the metadata maps, failing on two
different values for the same key. -/
def mergeMetadata (acc : List (String × String)) :
    List (String × String) → Except String (List (String × String))
  | [] => .ok acc
  | (k, v) :: rest =>
    match acc.lookup k with
    | some v2 => if v2 = v then mergeMetadata acc rest else .error "conflicting metadata"
    | none => mergeMetadata (acc ++ [(k, v)]) rest

/-- Modelled from the spec: `ArrowSchema::try_merge`, the generic schema
collaborator's merge operation (not part of this repository) — unions the
two column lists, deduplicating by name using the already-validated
compatible definitions, and unions the metadata maps, failing on
structural incompatibility. -/
def ArrowSchema.try_merge (a b : ArrowSchema) : Except String ArrowSchema :=
  match mergeAllFields a.fields b.fields with
  | .error e => .error e
  | .ok fs =>
    match mergeMetadata a.metadata b.metadata with
    | .error e => .error e
    | .ok md => .ok ⟨fs, md⟩

/-- The measurement pre-check of `try_merge`: when both schemas declare a
measurement and the names differ, fail immediately. -/
def Schema.tryMergePrecheck (self other : Schema) : Except Error Unit :=
  match self.measurement, other.measurement with
  | some existing_measurement, some new_measurement =>
    if existing_measurement = new_measurement then .ok ()
    else .error (.TryMergeDifferentMeasurementNames existing_measurement new_measurement)
  | _, _ => .ok ()

/-- The `try_for_each` body of `try_merge` for one of `other`'s columns: a
column absent from `self` is new (no conflict possible); a column present
in `self` must agree exactly on decoded role, physical type and
nullability, checked in that order. -/
def Schema.tryMergeCheckOne (self other : Schema) (f : ArrowField) : Except Error Unit :=
  match self.findField f.name with
  | none => .ok ()
  | some existing_field =>
    let existing_influx_column_type := self.columnRole existing_field.name
    let influx_column_type := other.columnRole f.name
    if existing_influx_column_type ≠ influx_column_type then
      .error (.TryMergeBadColumnType f.name existing_influx_column_type influx_column_type)
    else if f.dataType ≠ existing_field.dataType then
      .error (.TryMergeBadArrowType f.name existing_field.dataType f.dataType)
    else if f.nullable ≠ existing_field.nullable then
      .error (.TryMergeBadNullability f.name existing_field.nullable f.nullable)
    else .ok ()

/-- The per-column pre-check loop of `try_merge`, over `other`'s fields in
positional order, stopping at the first conflict. -/
def Schema.tryMergeCheck (self other : Schema) : List ArrowField → Except Error Unit
  | [] => .ok ()
  | f :: rest =>
    match self.tryMergeCheckOne other f with
    | .ok _ => self.tryMergeCheck other rest
    | .error e => .error e

/-- The `need_merge` flag of `try_merge` as observed on the success path:
true iff the measurements differ (as options) or `other` has a column
absent from `self`. When it is false the fast path returns `self`
without rebuilding the underlying representation. -/
def Schema.needMerge (self other : Schema) : Bool :=
  decide (self.measurement ≠ other.measurement)
    || other.inner.fields.any (fun f => (self.findField f.name).isNone)

/-- `Schema::try_merge`: measurement pre-check, per-column pre-checks, then
either the zero-copy fast path (`self` unchanged) or delegation to the
arrow schema merge. -/
def Schema.try_merge (self other : Schema) : Except Error Schema :=
  match self.tryMergePrecheck other with
  | .error e => .error e
  | .ok _ =>
    match self.tryMergeCheck other other.inner.fields with
    | .error e => .error e
    | .ok _ =>
      if self.needMerge other then
        match ArrowSchema.try_merge self.inner other.inner with
        | .ok merged => .ok ⟨merged⟩
        | .error msg => .error (.MergingSchemas msg)
      else .ok self

/-- Rust's `enumerate()` over a field list: pairs of (original index, field). -/
def enumF (i : Nat) : List ArrowField → List (Nat × ArrowField)
  | [] => []
  | f :: rest => (i, f) :: enumF (i + 1) rest

/-- The comparison used by the stable `sort_by` on column name: a stable
sort by name is the sort by the lexicographic key (name, original index),
which is injective on an enumerated list. -/
def sortKeyLe (a b : Nat × ArrowField) : Prop :=
  a.2.name < b.2.name ∨ (a.2.name = b.2.name ∧ a.1 ≤ b.1)

instance (a b : Nat × ArrowField) : Decidable (sortKeyLe a b) := by
  unfold sortKeyLe; infer_instance

instance : IsTotal (Nat × ArrowField) sortKeyLe where
  total a b := by
    rcases lt_trichotomy a.2.name b.2.name with h | h | h
    · exact Or.inl (Or.inl h)
    · rcases Nat.le_total a.1 b.1 with h2 | h2
      · exact Or.inl (Or.inr ⟨h, h2⟩)
      · exact Or.inr (Or.inr ⟨h.symm, h2⟩)
    · exact Or.inr (Or.inl h)

instance : IsTrans (Nat × ArrowField) sortKeyLe where
  trans a b c hab hbc := by
    rcases hab with h1 | ⟨h1, h1i⟩
    · rcases hbc with h2 | ⟨h2, _⟩
      · exact Or.inl (h1.trans h2)
      · exact Or.inl (h2 ▸ h1)
    · rcases hbc with h2 | ⟨h2, h2i⟩
      · exact Or.inl (h1 ▸ h2)
      · exact Or.inr ⟨h1.trans h2, h1i.trans h2i⟩

/-- The `is_sorted` scan of `sort_fields_by_name`: compare each post-sort
position with the pre-sort original index carried in the pair. -/
def checkSortedAux : Nat → List (Nat × ArrowField) → Bool
  | _, [] => true
  | i, p :: rest => i == p.1 && checkSortedAux (i + 1) rest

/-- `Schema::sort_fields_by_name`: stable sort of the columns by name; when
the sort is the identity permutation, return `self` unchanged, otherwise
rebuild from the reordered field list and the cloned metadata map. -/
def Schema.sort_fields_by_name (self : Schema) : Schema :=
  let sorted_fields := List.insertionSort sortKeyLe (enumF 0 self.inner.fields)
  if checkSortedAux 0 sorted_fields then self
  else ⟨⟨sorted_fields.map Prod.snd, self.inner.metadata⟩⟩

/-- ASCII single-quote character (U+0027), used by the Rust display formats
to quote column and measurement names. -/
def sq : String := ⟨[Char.ofNat 39]⟩

/-- Rust `Debug` rendering of an arrow data type. -/
def ArrowDataType.debugStr : ArrowDataType → String
  | .Float64 => "Float64"
  | .Int64 => "Int64"
  | .UInt64 => "UInt64"
  | .Utf8 => "Utf8"
  | .Boolean => "Boolean"
  | .Int16 => "Int16"
  | .Int8 => "Int8"

/-- Rust `Debug` rendering of a field kind. -/
def fieldKindDebugStr : InfluxFieldType → String
  | .Float => "Float"
  | .Integer => "Integer"
  | .UInteger => "UInteger"
  | .String => "String"
  | .Boolean => "Boolean"

/-- Rust `Debug` rendering of a column role. -/
def InfluxColumnType.debugStr : InfluxColumnType → String
  | .Tag => "Tag"
  | .Field t => "Field(" ++ fieldKindDebugStr t ++ ")"
  | .Timestamp => "Timestamp"

/-- Rust `Debug` rendering of an `Option<InfluxColumnType>`. -/
def optRoleDebug : Option InfluxColumnType → String
  | none => "None"
  | some t => "Some(" ++ t.debugStr ++ ")"

/-- `nullable_to_str` from schema.rs. -/
def nullable_to_str (nullability : Bool) : String :=
  if nullability then "can be null" else "can not be null"

/-- The snafu `display` attribute of each `Error` variant, rendered as the
human-readable diagnostic. Note the `TryMergeBadColumnType` format string
interpolates `influx_column_type` (the new schema's role) after the label
Existing type and `existing_influx_column_type` after the label new type,
exactly as written in the source. -/
def Error.displayMsg : Error → String
  | .BothFieldAndTag column_name =>
    "Error validating schema: " ++ sq ++ column_name ++ sq ++ " is both a field and a tag"
  | .DuplicateColumnName column_name =>
    "Error: Duplicate column name found in schema: " ++ sq ++ column_name ++ sq
  | .IncompatibleMetadata column_name influxdb_column_type actual_type =>
    "Error: Incompatible metadata type found in schema for column " ++ sq ++ column_name ++ sq
      ++ ". Metadata specified " ++ influxdb_column_type.debugStr
      ++ " which is incompatible with actual type " ++ actual_type.debugStr
  | .InvalidTimestamp column_name existing_type =>
    "Duplicate column name: " ++ sq ++ column_name ++ sq ++ " was specified to be "
      ++ existing_type.debugStr ++ " as well as timestamp"
  | .TryMergeDifferentMeasurementNames existing_measurement new_measurement =>
    "Schema Merge Error: Incompatible measurement names. Existing measurement name "
      ++ sq ++ existing_measurement ++ sq ++ ", new measurement name "
      ++ sq ++ new_measurement ++ sq
  | .TryMergeBadColumnType field_name existing_influx_column_type influx_column_type =>
    "Schema Merge Error: Incompatible column type for " ++ sq ++ field_name ++ sq
      ++ ". Existing type " ++ optRoleDebug influx_column_type
      ++ ", new type " ++ optRoleDebug existing_influx_column_type
  | .TryMergeBadArrowType field_name existing_data_type new_data_type =>
    "Schema Merge Error: Incompatible data type for " ++ sq ++ field_name ++ sq
      ++ ". Existing type " ++ existing_data_type.debugStr
      ++ ", new type " ++ new_data_type.debugStr
  | .TryMergeBadNullability field_name existing_nullability new_nullability =>
    "Schema Merge Error: Incompatible nullability for " ++ sq ++ field_name ++ sq
      ++ ". Existing field " ++ nullable_to_str existing_nullability
      ++ ", new field " ++ nullable_to_str new_nullability
  | .MergingSchemas source =>
    "Schema Merge: Error merging underlying schema: " ++ source

/-- All seven values of `InfluxColumnType`. -/
def allInfluxColumnTypes : List InfluxColumnType :=
  [.Tag, .Field .Float, .Field .Integer, .Field .UInteger, .Field .String,
   .Field .Boolean, .Timestamp]

/-- The schema invariant the validating constructor establishes: column
names are unique, and every column whose metadata decodes to a role has
exactly that role's canonical physical type. -/
def SchemaInvariant (s : Schema) : Prop :=
  (s.inner.fields.map ArrowField.name).Nodup ∧
  ∀ f ∈ s.inner.fields, ∀ r, s.columnRole f.name = some r →
    r.valid_arrow_type f.dataType = true

/-! ### Codec lemmas -/

theorem tryFromStr_toStr (t : InfluxColumnType) :
    InfluxColumnType.tryFromStr t.toStr = some t := by
  cases t with
  | Tag => rfl
  | Timestamp => rfl
  | Field ft => cases ft <;> rfl

theorem toStr_of_tryFromStr {s : String} {t : InfluxColumnType}
    (h : InfluxColumnType.tryFromStr s = some t) : s = t.toStr := by
  unfold InfluxColumnType.tryFromStr at h
  split_ifs at h <;> (injection h with h; subst_vars; rfl)

/-- Claim C7 (amended: there are seven tokens, not six): each `InfluxColumnType`
value serializes to one of seven fixed string tokens, exactly the strings of
the external-interface table; serialization is injective; decoding is its
inverse (decoding the token of `r` yields `r`, and decoding any string that is
not a token of some role yields no role). -/
theorem c7_codec_roundtrip :
    (allInfluxColumnTypes.map InfluxColumnType.toStr =
      ["iox::column_type::tag", "iox::column_type::field::float",
       "iox::column_type::field::integer", "iox::column_type::field::uinteger",
       "iox::column_type::field::string", "iox::column_type::field::boolean",
       "iox::column_type::timestamp"]) ∧
    (∀ t : InfluxColumnType, t ∈ allInfluxColumnTypes) ∧
    (∀ t : InfluxColumnType, InfluxColumnType.tryFromStr t.toStr = some t) ∧
    (∀ (s : String) (t : InfluxColumnType),
      InfluxColumnType.tryFromStr s = some t → s = t.toStr) ∧
    (∀ t₁ t₂ : InfluxColumnType, t₁.toStr = t₂.toStr → t₁ = t₂) := by
  refine ⟨rfl, ?_, tryFromStr_toStr, fun s t h => toStr_of_tryFromStr h, ?_⟩
  · intro t
    cases t with
    | Tag => simp [allInfluxColumnTypes]
    | Timestamp => simp [allInfluxColumnTypes]
    | Field ft => cases ft <;> simp [allInfluxColumnTypes]
  · intro t₁ t₂ h
    have h1 := tryFromStr_toStr t₁
    rw [h, tryFromStr_toStr t₂] at h1
    exact (Option.some_injective _ h1).symm

/-- Instance of claim C7's theorem at the `Tag` role and its token. -/
theorem c7_codec_roundtrip_witness :
    "iox::column_type::tag" = InfluxColumnType.Tag.toStr :=
  c7_codec_roundtrip.2.2.2.1 "iox::column_type::tag" InfluxColumnType.Tag (by decide)

/-- Claim C7 counterexample to the token count as stated: the serialized
tokens of the seven roles are pairwise distinct, so there are seven fixed
string tokens, not six. -/
theorem c7_token_count_counterexample :
    (allInfluxColumnTypes.map InfluxColumnType.toStr).Nodup ∧
    (allInfluxColumnTypes.map InfluxColumnType.toStr).length = 7 ∧ (7 : Nat) ≠ 6 := by
  decide

/-! ### Merge pre-check lemmas -/

theorem tryMergePrecheck_ok_of_eq (self other : Schema)
    (hm : self.measurement = other.measurement) :
    self.tryMergePrecheck other = .ok () := by
  unfold Schema.tryMergePrecheck
  rw [hm]
  cases other.measurement with
  | none => rfl
  | some m => simp

theorem tryMergePrecheck_ok_of (self other : Schema)
    (hmeas : ∀ em nm, self.measurement = some em → other.measurement = some nm → em = nm) :
    self.tryMergePrecheck other = .ok () := by
  unfold Schema.tryMergePrecheck
  cases h1 : self.measurement with
  | none => rfl
  | some em =>
    cases h2 : other.measurement with
    | none => rfl
    | some nm => simp [hmeas em nm h1 h2]

/-- Claim C3: when both schemas declare a measurement and the names differ,
`try_merge` fails with `TryMergeDifferentMeasurementNames` carrying both
names, before any per-column comparison — the statement holds for all
column contents, conflicting or not. -/
theorem c3_measurement_mismatch_first (self other : Schema) (em nm : String)
    (h1 : self.measurement = some em) (h2 : other.measurement = some nm) (hne : em ≠ nm) :
    self.try_merge other = .error (.TryMergeDifferentMeasurementNames em nm) := by
  unfold Schema.try_merge Schema.tryMergePrecheck
  rw [h1, h2]
  simp [hne]

/-- Instance of claim C3's theorem: the measurement error is produced even
though the shared column `t` also conflicts in role and physical type. -/
theorem c3_measurement_mismatch_first_witness :
    (Schema.mk ⟨[⟨"t", .Utf8, true⟩],
        [("t", "iox::column_type::tag"), (MEASUREMENT_METADATA_KEY, "m1")]⟩).try_merge
      (Schema.mk ⟨[⟨"t", .Int64, true⟩],
        [("t", "iox::column_type::field::integer"), (MEASUREMENT_METADATA_KEY, "m2")]⟩)
      = .error (.TryMergeDifferentMeasurementNames "m1" "m2") :=
  c3_measurement_mismatch_first _ _ "m1" "m2" (by decide) (by decide) (by decide)

theorem measEq_pointwise {self other : Schema} (h : self.measurement = other.measurement) :
    ∀ em nm, self.measurement = some em → other.measurement = some nm → em = nm := by
  intro em nm h1 h2
  rw [h, h2] at h1
  exact (Option.some_injective _ h1).symm

theorem find?_name_self :
    ∀ {l : List ArrowField} {f : ArrowField}, (l.map ArrowField.name).Nodup → f ∈ l →
      l.find? (fun ef => ef.name == f.name) = some f := by
  intro l
  induction l with
  | nil => intro f _ hf; cases hf
  | cons g rest ih =>
    intro f hnd hf
    rw [List.map_cons, List.nodup_cons] at hnd
    rcases List.mem_cons.mp hf with rfl | hf2
    · simp [List.find?]
    · have hne : (g.name == f.name) = false := by
        refine beq_eq_false_iff_ne.mpr fun h => hnd.1 ?_
        exact h ▸ List.mem_map_of_mem ArrowField.name hf2
      rw [List.find?, hne]
      exact ih hnd.2 hf2

theorem findField_self {S : Schema} (hnd : (S.inner.fields.map ArrowField.name).Nodup)
    {f : ArrowField} (hf : f ∈ S.inner.fields) : S.findField f.name = some f :=
  find?_name_self hnd hf

theorem tryMergeCheckOne_ok_of {self other : Schema} {f : ArrowField}
    (h : ∀ ef, self.findField f.name = some ef →
      self.columnRole ef.name = other.columnRole f.name ∧
      ef.dataType = f.dataType ∧ ef.nullable = f.nullable) :
    self.tryMergeCheckOne other f = .ok () := by
  unfold Schema.tryMergeCheckOne
  cases hef : self.findField f.name with
  | none => rfl
  | some ef =>
    obtain ⟨h1, h2, h3⟩ := h ef hef
    simp [h1, h2, h3]

theorem tryMergeCheck_ok_of {self other : Schema} :
    ∀ {l : List ArrowField}, (∀ f ∈ l, self.tryMergeCheckOne other f = .ok ()) →
      self.tryMergeCheck other l = .ok () := by
  intro l
  induction l with
  | nil => intro; rfl
  | cons f rest ih =>
    intro h
    unfold Schema.tryMergeCheck
    rw [h f (List.mem_cons_self _ _)]
    exact ih fun g hg => h g (List.mem_cons_of_mem _ hg)

theorem tryMergeCheck_append_of {self other : Schema} {l1 l2 : List ArrowField}
    (h : ∀ f ∈ l1, self.tryMergeCheckOne other f = .ok ()) :
    self.tryMergeCheck other (l1 ++ l2) = self.tryMergeCheck other l2 := by
  revert h
  induction l1 with
  | nil => intro; rfl
  | cons f rest ih =>
    intro h
    rw [List.cons_append]
    show (match self.tryMergeCheckOne other f with
          | .ok _ => self.tryMergeCheck other (rest ++ l2)
          | .error e => .error e) = self.tryMergeCheck other l2
    rw [h f (List.mem_cons_self _ _)]
    exact ih fun g hg => h g (List.mem_cons_of_mem _ hg)

theorem tryMerge_fast {self other : Schema}
    (hpre : self.tryMergePrecheck other = .ok ())
    (hcheck : self.tryMergeCheck other other.inner.fields = .ok ())
    (hnm : self.needMerge other = false) :
    self.try_merge other = .ok self := by
  unfold Schema.try_merge
  rw [hpre, hcheck, hnm]
  rfl

theorem tryMerge_check_error {self other : Schema} {e : Error}
    (hpre : self.tryMergePrecheck other = .ok ())
    (hcheck : self.tryMergeCheck other other.inner.fields = .error e) :
    self.try_merge other = .error e := by
  unfold Schema.try_merge
  rw [hpre, hcheck]

theorem tryMerge_first_conflict {self other : Schema} {pre post : List ArrowField}
    {f : ArrowField} {e : Error}
    (hfields : other.inner.fields = pre ++ f :: post)
    (hmeas : ∀ em nm, self.measurement = some em → other.measurement = some nm → em = nm)
    (hpre : ∀ g ∈ pre, self.tryMergeCheckOne other g = .ok ())
    (hf : self.tryMergeCheckOne other f = .error e) :
    self.try_merge other = .error e := by
  refine tryMerge_check_error (tryMergePrecheck_ok_of _ _ hmeas) ?_
  rw [hfields, tryMergeCheck_append_of hpre]
  unfold Schema.tryMergeCheck
  rw [hf]

/-- Claim C1: merge identity / zero-copy fast path. Whenever every column
of `other` is present in `self` with identical decoded role, physical type
and nullability, and the measurements agree, `try_merge` succeeds with
`self` unchanged and the merge flag stays false (no structural rebuild);
in particular `try_merge(S, S) = Ok(S)` for every valid schema `S`. -/
theorem c1_merge_identity_fast_path :
    (∀ self other : Schema,
      self.measurement = other.measurement →
      (∀ f ∈ other.inner.fields, ∃ ef, self.findField f.name = some ef ∧
          self.columnRole ef.name = other.columnRole f.name ∧
          ef.dataType = f.dataType ∧ ef.nullable = f.nullable) →
      self.needMerge other = false ∧ self.try_merge other = .ok self) ∧
    ∀ S : Schema, (S.inner.fields.map ArrowField.name).Nodup →
      S.needMerge S = false ∧ S.try_merge S = .ok S := by
  have main : ∀ self other : Schema,
      self.measurement = other.measurement →
      (∀ f ∈ other.inner.fields, ∃ ef, self.findField f.name = some ef ∧
          self.columnRole ef.name = other.columnRole f.name ∧
          ef.dataType = f.dataType ∧ ef.nullable = f.nullable) →
      self.needMerge other = false ∧ self.try_merge other = .ok self := by
    intro self other hm hsub
    have hnm : self.needMerge other = false := by
      unfold Schema.needMerge
      rw [hm]
      simp only [ne_eq, not_true_eq_false, decide_False, Bool.false_or, List.any_eq_false]
      intro f hf
      obtain ⟨ef, hef, -⟩ := hsub f hf
      simp [hef]
    have hcheck : self.tryMergeCheck other other.inner.fields = .ok () := by
      refine tryMergeCheck_ok_of fun f hf => tryMergeCheckOne_ok_of fun ef hef => ?_
      obtain ⟨ef2, hef2, hc⟩ := hsub f hf
      rw [hef] at hef2
      exact (Option.some_injective _ hef2) ▸ hc
    exact ⟨hnm, tryMerge_fast (tryMergePrecheck_ok_of_eq _ _ hm) hcheck hnm⟩
  refine ⟨main, fun S hnd => main S S rfl fun f hf => ⟨f, findField_self hnd hf, rfl, rfl, rfl⟩⟩

/-- Instance of claim C1's theorem: merging a concrete two-column schema
with itself (and with a one-column subset of itself) returns it unchanged. -/
theorem c1_merge_identity_fast_path_witness :
    (Schema.mk ⟨[⟨"t", .Utf8, false⟩, ⟨"i", .Int64, true⟩],
        [("t", "iox::column_type::tag")]⟩).needMerge
      (Schema.mk ⟨[⟨"t", .Utf8, false⟩, ⟨"i", .Int64, true⟩],
        [("t", "iox::column_type::tag")]⟩) = false ∧
    (Schema.mk ⟨[⟨"t", .Utf8, false⟩, ⟨"i", .Int64, true⟩],
        [("t", "iox::column_type::tag")]⟩).try_merge
      (Schema.mk ⟨[⟨"t", .Utf8, false⟩, ⟨"i", .Int64, true⟩],
        [("t", "iox::column_type::tag")]⟩) = .ok
      (Schema.mk ⟨[⟨"t", .Utf8, false⟩, ⟨"i", .Int64, true⟩],
        [("t", "iox::column_type::tag")]⟩) :=
  c1_merge_identity_fast_path.2 _ (by decide)

theorem tryMergeCheckOne_role_error {self other : Schema} {f ef : ArrowField}
    (hef : self.findField f.name = some ef)
    (hne : self.columnRole ef.name ≠ other.columnRole f.name) :
    self.tryMergeCheckOne other f =
      .error (.TryMergeBadColumnType f.name (self.columnRole ef.name) (other.columnRole f.name)) := by
  unfold Schema.tryMergeCheckOne
  rw [hef]
  simp [hne]

theorem tryMergeCheckOne_type_error {self other : Schema} {f ef : ArrowField}
    (hef : self.findField f.name = some ef)
    (heq : self.columnRole ef.name = other.columnRole f.name)
    (hne : f.dataType ≠ ef.dataType) :
    self.tryMergeCheckOne other f =
      .error (.TryMergeBadArrowType f.name ef.dataType f.dataType) := by
  unfold Schema.tryMergeCheckOne
  rw [hef]
  simp [heq, hne]

theorem tryMergeCheckOne_null_error {self other : Schema} {f ef : ArrowField}
    (hef : self.findField f.name = some ef)
    (heq : self.columnRole ef.name = other.columnRole f.name)
    (hdt : f.dataType = ef.dataType)
    (hne : f.nullable ≠ ef.nullable) :
    self.tryMergeCheckOne other f =
      .error (.TryMergeBadNullability f.name ef.nullable f.nullable) := by
  unfold Schema.tryMergeCheckOne
  rw [hef]
  simp [heq, hdt, hne]

/-- Claim C2: per-column conflict detection of `try_merge`. For a column of
`other` that is also present in `self` (and is the first conflicting one:
the earlier shared columns agree), exact equality of decoded role, physical
type and nullability is required; a role mismatch fails with
`TryMergeBadColumnType` carrying the column name and both roles, otherwise
a type mismatch fails with `TryMergeBadArrowType` carrying both types,
otherwise a nullability mismatch fails with `TryMergeBadNullability`
carrying both nullabilities — in that precedence order. -/
theorem c2_column_conflict_precedence (self other : Schema) (pre post : List ArrowField)
    (f ef : ArrowField)
    (hfields : other.inner.fields = pre ++ f :: post)
    (hmeas : ∀ em nm, self.measurement = some em → other.measurement = some nm → em = nm)
    (hpre : ∀ g ∈ pre, ∀ eg, self.findField g.name = some eg →
        self.columnRole eg.name = other.columnRole g.name ∧
        eg.dataType = g.dataType ∧ eg.nullable = g.nullable)
    (hef : self.findField f.name = some ef) :
    (self.columnRole ef.name ≠ other.columnRole f.name →
      self.try_merge other = .error
        (.TryMergeBadColumnType f.name (self.columnRole ef.name) (other.columnRole f.name))) ∧
    (self.columnRole ef.name = other.columnRole f.name → f.dataType ≠ ef.dataType →
      self.try_merge other = .error
        (.TryMergeBadArrowType f.name ef.dataType f.dataType)) ∧
    (self.columnRole ef.name = other.columnRole f.name → f.dataType = ef.dataType →
      f.nullable ≠ ef.nullable →
      self.try_merge other = .error
        (.TryMergeBadNullability f.name ef.nullable f.nullable)) := by
  have hpre2 : ∀ g ∈ pre, self.tryMergeCheckOne other g = .ok () := fun g hg =>
    tryMergeCheckOne_ok_of fun eg heg => hpre g hg eg heg
  refine ⟨fun hne => ?_, fun heq hne => ?_, fun heq hdt hne => ?_⟩
  · exact tryMerge_first_conflict hfields hmeas hpre2 (tryMergeCheckOne_role_error hef hne)
  · exact tryMerge_first_conflict hfields hmeas hpre2 (tryMergeCheckOne_type_error hef heq hne)
  · exact tryMerge_first_conflict hfields hmeas hpre2
      (tryMergeCheckOne_null_error hef heq hdt hne)

/-- Instance of claim C2's theorem: a tag column merged against an integer
field column of the same name fails with `TryMergeBadColumnType` naming
the column and both roles. -/
theorem c2_column_conflict_precedence_witness :
    (Schema.mk ⟨[⟨"t", .Utf8, true⟩], [("t", "iox::column_type::tag")]⟩).try_merge
      (Schema.mk ⟨[⟨"t", .Int64, true⟩], [("t", "iox::column_type::field::integer")]⟩)
      = .error (.TryMergeBadColumnType "t" (some .Tag) (some (.Field .Integer))) :=
  (c2_column_conflict_precedence _ _ [] [] ⟨"t", .Int64, true⟩ ⟨"t", .Utf8, true⟩ rfl
      (measEq_pointwise (by decide)) (fun g hg => absurd hg (List.not_mem_nil g))
      (by decide)).1 (by decide)

/-- Claim C10: when `try_merge` fails with `TryMergeBadColumnType`, the
error's `existing_influx_column_type` field holds the role decoded from
`self` and its `influx_column_type` field holds the role decoded from
`other`; the rendered display message interpolates `influx_column_type`
(the new schema's role) after the label Existing type and
`existing_influx_column_type` (self's role) after the label new type, so
the two role values appear swapped relative to their labels. -/
theorem c10_bad_column_type_display_swap (self other : Schema) (pre post : List ArrowField)
    (f ef : ArrowField)
    (hfields : other.inner.fields = pre ++ f :: post)
    (hmeas : ∀ em nm, self.measurement = some em → other.measurement = some nm → em = nm)
    (hpre : ∀ g ∈ pre, ∀ eg, self.findField g.name = some eg →
        self.columnRole eg.name = other.columnRole g.name ∧
        eg.dataType = g.dataType ∧ eg.nullable = g.nullable)
    (hef : self.findField f.name = some ef)
    (hne : self.columnRole ef.name ≠ other.columnRole f.name) :
    self.try_merge other = .error
      (.TryMergeBadColumnType f.name (self.columnRole ef.name) (other.columnRole f.name)) ∧
    Error.displayMsg
      (.TryMergeBadColumnType f.name (self.columnRole ef.name) (other.columnRole f.name)) =
      "Schema Merge Error: Incompatible column type for " ++ sq ++ f.name ++ sq
        ++ ". Existing type " ++ optRoleDebug (other.columnRole f.name)
        ++ ", new type " ++ optRoleDebug (self.columnRole ef.name) := by
  refine ⟨?_, rfl⟩
  have hpre2 : ∀ g ∈ pre, self.tryMergeCheckOne other g = .ok () := fun g hg =>
    tryMergeCheckOne_ok_of fun eg heg => hpre g hg eg heg
  exact tryMerge_first_conflict hfields hmeas hpre2 (tryMergeCheckOne_role_error hef hne)

/-- Instance of claim C10's theorem, reproducing the swapped diagnostic of
the source's `test_merge_incompatible_column_types` test: `self` declares
the tag, `other` declares the integer field, and the message renders
Existing type Some(Field(Integer)), new type Some(Tag). -/
theorem c10_bad_column_type_display_swap_witness :
    (Schema.mk ⟨[⟨"c", .Utf8, true⟩], [("c", "iox::column_type::tag")]⟩).try_merge
      (Schema.mk ⟨[⟨"c", .Int64, true⟩], [("c", "iox::column_type::field::integer")]⟩)
      = .error (.TryMergeBadColumnType "c" (some .Tag) (some (.Field .Integer))) ∧
    Error.displayMsg (.TryMergeBadColumnType "c" (some .Tag) (some (.Field .Integer))) =
      "Schema Merge Error: Incompatible column type for " ++ sq ++ "c" ++ sq
        ++ ". Existing type " ++ "Some(Field(Integer))" ++ ", new type " ++ "Some(Tag)" :=
  c10_bad_column_type_display_swap _ _ [] [] ⟨"c", .Int64, true⟩ ⟨"c", .Utf8, true⟩ rfl
    (measEq_pointwise (by decide)) (fun g hg => absurd hg (List.not_mem_nil g))
    (by decide) (by decide)

/-! ### Validation lemmas -/

theorem firstDupAux_eq_none_iff :
    ∀ (l : List String) (seen : List String),
      firstDupAux seen l = none ↔ l.Nodup ∧ ∀ x ∈ l, x ∉ seen := by
  intro l
  induction l with
  | nil => intro seen; simp [firstDupAux]
  | cons n rest ih =>
    intro seen
    show (if n ∈ seen then some n else firstDupAux (n :: seen) rest) = none ↔ _
    by_cases h : n ∈ seen
    · rw [if_pos h]
      simp only [List.nodup_cons, List.mem_cons]
      constructor
      · intro hc; exact Option.noConfusion hc
      · rintro ⟨-, hall⟩
        exact absurd h (hall n (Or.inl rfl))
    · rw [if_neg h, ih (n :: seen)]
      simp only [List.nodup_cons, List.mem_cons]
      constructor
      · rintro ⟨hnd, hall⟩
        refine ⟨⟨fun hn => (hall n hn) (Or.inl rfl), hnd⟩, ?_⟩
        rintro x (rfl | hx)
        · exact h
        · exact fun hs => (hall x hx) (Or.inr hs)
      · rintro ⟨⟨hnr, hnd⟩, hall⟩
        refine ⟨hnd, fun x hx => ?_⟩
        rintro (rfl | hs)
        · exact hnr hx
        · exact (hall x (Or.inr hx)) hs

theorem firstDup_eq_none_iff (names : List String) :
    firstDup names = none ↔ names.Nodup := by
  unfold firstDup
  rw [firstDupAux_eq_none_iff]
  simp

theorem firstDupAux_first :
    ∀ (l1 : List String) (seen l2 : List String) (n : String), l1.Nodup →
      (∀ x ∈ l1, x ∉ seen) → (n ∈ seen ∨ n ∈ l1) →
      firstDupAux seen (l1 ++ n :: l2) = some n := by
  intro l1
  induction l1 with
  | nil =>
    intro seen l2 n _ _ hn
    have hns : n ∈ seen := hn.resolve_right (fun hc => List.not_mem_nil n hc)
    show (if n ∈ seen then some n else _) = some n
    rw [if_pos hns]
  | cons m rest ih =>
    intro seen l2 n hnd hsn hn
    rw [List.nodup_cons] at hnd
    have hm : m ∉ seen := hsn m (List.mem_cons_self _ _)
    show (if m ∈ seen then some m else firstDupAux (m :: seen) (rest ++ n :: l2)) = some n
    rw [if_neg hm]
    refine ih (m :: seen) l2 n hnd.2 ?_ ?_
    · intro x hx
      rw [List.mem_cons]
      rintro (rfl | hs)
      · exact hnd.1 hx
      · exact (hsn x (List.mem_cons_of_mem _ hx)) hs
    · rcases hn with hs | hmem
      · exact Or.inl (List.mem_cons_of_mem _ hs)
      · rcases List.mem_cons.mp hmem with rfl | hr
        · exact Or.inl (List.mem_cons_self _ _)
        · exact Or.inr hr

theorem firstDup_first {pre l2 : List String} {n : String}
    (hnd : pre.Nodup) (hn : n ∈ pre) : firstDup (pre ++ n :: l2) = some n :=
  firstDupAux_first pre [] l2 n hnd (fun x _ => List.not_mem_nil x) (Or.inr hn)

theorem checkMetadata_cons_none {md : List (String × String)} {f : ArrowField}
    {rest : List ArrowField} (hd : decodeRole md f.name = none) :
    checkMetadata md (f :: rest) = checkMetadata md rest := by
  show (match decodeRole md f.name with
        | some t =>
          if t.valid_arrow_type f.dataType then checkMetadata md rest
          else .error (.IncompatibleMetadata f.name t f.dataType)
        | none => checkMetadata md rest) = checkMetadata md rest
  rw [hd]

theorem checkMetadata_cons_valid {md : List (String × String)} {f : ArrowField}
    {rest : List ArrowField} {t : InfluxColumnType} (hd : decodeRole md f.name = some t)
    (hv : t.valid_arrow_type f.dataType = true) :
    checkMetadata md (f :: rest) = checkMetadata md rest := by
  show (match decodeRole md f.name with
        | some t =>
          if t.valid_arrow_type f.dataType then checkMetadata md rest
          else .error (.IncompatibleMetadata f.name t f.dataType)
        | none => checkMetadata md rest) = checkMetadata md rest
  rw [hd]
  show (if t.valid_arrow_type f.dataType then checkMetadata md rest
        else .error (.IncompatibleMetadata f.name t f.dataType)) = checkMetadata md rest
  exact if_pos hv

theorem checkMetadata_cons_invalid {md : List (String × String)} {f : ArrowField}
    {rest : List ArrowField} {t : InfluxColumnType} (hd : decodeRole md f.name = some t)
    (hv : t.valid_arrow_type f.dataType = false) :
    checkMetadata md (f :: rest) = .error (.IncompatibleMetadata f.name t f.dataType) := by
  show (match decodeRole md f.name with
        | some t =>
          if t.valid_arrow_type f.dataType then checkMetadata md rest
          else .error (.IncompatibleMetadata f.name t f.dataType)
        | none => checkMetadata md rest) = _
  rw [hd]
  show (if t.valid_arrow_type f.dataType then checkMetadata md rest
        else .error (.IncompatibleMetadata f.name t f.dataType)) = _
  exact if_neg (by simp [hv])

theorem checkMetadata_ok_iff (md : List (String × String)) :
    ∀ l : List ArrowField, checkMetadata md l = .ok () ↔
      ∀ f ∈ l, ∀ r, decodeRole md f.name = some r → r.valid_arrow_type f.dataType = true := by
  intro l
  induction l with
  | nil => simp [checkMetadata]
  | cons f rest ih =>
    cases hd : decodeRole md f.name with
    | none =>
      rw [checkMetadata_cons_none hd, ih, List.forall_mem_cons]
      constructor
      · intro h
        exact ⟨fun r hr => Option.noConfusion (hd.symm.trans hr), h⟩
      · exact And.right
    | some t =>
      cases hv : t.valid_arrow_type f.dataType with
      | true =>
        rw [checkMetadata_cons_valid hd hv, ih, List.forall_mem_cons]
        constructor
        · intro h
          refine ⟨fun r hr => ?_, h⟩
          cases Option.some_injective _ (hd.symm.trans hr)
          exact hv
        · exact And.right
      | false =>
        rw [checkMetadata_cons_invalid hd hv, List.forall_mem_cons]
        constructor
        · intro hc; exact Except.noConfusion hc
        · rintro ⟨hf, -⟩
          exact absurd (hf t hd) (by simp [hv])

theorem checkMetadata_append {md : List (String × String)} {l1 l2 : List ArrowField}
    (h : checkMetadata md l1 = .ok ()) :
    checkMetadata md (l1 ++ l2) = checkMetadata md l2 := by
  revert h
  induction l1 with
  | nil => intro; rfl
  | cons f rest ih =>
    intro h
    rw [List.cons_append]
    cases hd : decodeRole md f.name with
    | none =>
      rw [checkMetadata_cons_none hd] at h ⊢
      exact ih h
    | some t =>
      cases hv : t.valid_arrow_type f.dataType with
      | true =>
        rw [checkMetadata_cons_valid hd hv] at h ⊢
        exact ih h
      | false =>
        rw [checkMetadata_cons_invalid hd hv] at h
        exact Except.noConfusion h

theorem try_from_arrow_dup {a : ArrowSchema} {n : String}
    (hd : firstDup (a.fields.map ArrowField.name) = some n) :
    Schema.try_from_arrow a = .error (.DuplicateColumnName n) := by
  unfold Schema.try_from_arrow
  rw [hd]

theorem try_from_arrow_nodup {a : ArrowSchema}
    (hd : firstDup (a.fields.map ArrowField.name) = none) :
    Schema.try_from_arrow a =
      (match checkMetadata a.metadata a.fields with
       | .error e => .error e
       | .ok _ => .ok ⟨a⟩) := by
  unfold Schema.try_from_arrow
  rw [hd]

theorem try_from_arrow_ok_of {a : ArrowSchema}
    (hnd : (a.fields.map ArrowField.name).Nodup)
    (hok : checkMetadata a.metadata a.fields = .ok ()) :
    Schema.try_from_arrow a = .ok ⟨a⟩ := by
  rw [try_from_arrow_nodup ((firstDup_eq_none_iff _).mpr hnd), hok]

theorem try_from_arrow_ok_elim {a : ArrowSchema} {s : Schema}
    (h : Schema.try_from_arrow a = .ok s) :
    (a.fields.map ArrowField.name).Nodup ∧
    checkMetadata a.metadata a.fields = .ok () ∧ s = ⟨a⟩ := by
  cases hd : firstDup (a.fields.map ArrowField.name) with
  | some n =>
    rw [try_from_arrow_dup hd] at h
    exact Except.noConfusion h
  | none =>
    rw [try_from_arrow_nodup hd] at h
    cases hc : checkMetadata a.metadata a.fields with
    | error e =>
      rw [hc] at h
      exact Except.noConfusion (show Except.error e = Except.ok s from h)
    | ok u =>
      cases u
      rw [hc] at h
      have h2 : Except.ok (Schema.mk a) = .ok s := h
      exact ⟨(firstDup_eq_none_iff _).mp hd, rfl, (Except.ok.inj h2).symm⟩

/-- Claim C5: `try_from_arrow` validates in order. (1) A repeated column
name fails with `DuplicateColumnName` naming the first duplicate in
positional order, regardless of any metadata problems (the duplicate scan
runs over all columns before any metadata check); (2) with unique names,
the first column in positional order whose metadata decodes to a role with
a mismatched physical type fails with `IncompatibleMetadata` naming the
column, the declared role and the actual type; (3) otherwise construction
succeeds with the wrapped schema. -/
theorem c5_try_from_arrow_validation_order :
    (∀ (a : ArrowSchema) (pre rest : List String) (n : String),
      a.fields.map ArrowField.name = pre ++ n :: rest → pre.Nodup → n ∈ pre →
      Schema.try_from_arrow a = .error (.DuplicateColumnName n)) ∧
    (∀ (a : ArrowSchema) (pre rest : List ArrowField) (f : ArrowField) (r : InfluxColumnType),
      (a.fields.map ArrowField.name).Nodup →
      a.fields = pre ++ f :: rest →
      (∀ g ∈ pre, ∀ r2, decodeRole a.metadata g.name = some r2 →
        r2.valid_arrow_type g.dataType = true) →
      decodeRole a.metadata f.name = some r →
      r.valid_arrow_type f.dataType = false →
      Schema.try_from_arrow a = .error (.IncompatibleMetadata f.name r f.dataType)) ∧
    (∀ a : ArrowSchema,
      (a.fields.map ArrowField.name).Nodup →
      (∀ f ∈ a.fields, ∀ r, decodeRole a.metadata f.name = some r →
        r.valid_arrow_type f.dataType = true) →
      Schema.try_from_arrow a = .ok ⟨a⟩) := by
  refine ⟨?_, ?_, ?_⟩
  · intro a pre rest n hmap hnd hn
    unfold Schema.try_from_arrow
    rw [hmap, firstDup_first hnd hn]
  · intro a pre rest f r hnd hfields hpre hd hv
    rw [try_from_arrow_nodup ((firstDup_eq_none_iff _).mpr hnd), hfields,
      checkMetadata_append ((checkMetadata_ok_iff _ _).mpr hpre),
      checkMetadata_cons_invalid hd hv]
  · intro a hnd hall
    exact try_from_arrow_ok_of hnd ((checkMetadata_ok_iff _ _).mpr hall)

/-- Instances of claim C5's theorem: a duplicated name is reported (even
though the duplicated column also carries conflicting role metadata), a
role/type mismatch is reported when names are unique, and a clean schema
is accepted. -/
theorem c5_try_from_arrow_validation_order_witness :
    Schema.try_from_arrow ⟨[⟨"a", .Utf8, true⟩, ⟨"b", .Utf8, true⟩, ⟨"a", .Int64, true⟩],
        [("a", "iox::column_type::tag")]⟩
      = .error (.DuplicateColumnName "a") ∧
    Schema.try_from_arrow ⟨[⟨"a", .Utf8, true⟩, ⟨"b", .Int64, true⟩],
        [("b", "iox::column_type::field::float")]⟩
      = .error (.IncompatibleMetadata "b" (.Field .Float) .Int64) ∧
    Schema.try_from_arrow ⟨[⟨"a", .Utf8, true⟩], [("a", "iox::column_type::tag")]⟩
      = .ok ⟨⟨[⟨"a", .Utf8, true⟩], [("a", "iox::column_type::tag")]⟩⟩ :=
  ⟨c5_try_from_arrow_validation_order.1 _ ["a", "b"] [] "a" rfl (by decide) (by decide),
   c5_try_from_arrow_validation_order.2.1 _ [⟨"a", .Utf8, true⟩] [] ⟨"b", .Int64, true⟩
     (.Field .Float) (by decide) rfl (by decide) (by decide) (by decide),
   c5_try_from_arrow_validation_order.2.2 _ (by decide) (by decide)⟩

/-- Claim C6: foreign-metadata tolerance. Metadata entries that do not
decode to a role (and entries whose key names no column) never cause
`try_from_arrow` to fail: with unique names and every decodable role
type-valid, construction succeeds, the metadata map is preserved
unchanged, and for a column whose metadata value does not decode to a
role, `field` returns `none` as the role while still returning the
column descriptor. -/
theorem c6_foreign_metadata_tolerance (a : ArrowSchema)
    (hnd : (a.fields.map ArrowField.name).Nodup)
    (hval : ∀ f ∈ a.fields, ∀ r, decodeRole a.metadata f.name = some r →
      r.valid_arrow_type f.dataType = true) :
    Schema.try_from_arrow a = .ok ⟨a⟩ ∧
    (Schema.mk a).inner.metadata = a.metadata ∧
    ∀ (i : Nat) (h : i < (Schema.mk a).len),
      decodeRole a.metadata (a.fields.get ⟨i, h⟩).name = none →
      (Schema.mk a).field i h = (none, a.fields.get ⟨i, h⟩) := by
  refine ⟨try_from_arrow_ok_of hnd ((checkMetadata_ok_iff _ _).mpr hval), rfl, ?_⟩
  intro i h hdec
  show ((Schema.mk a).columnRole (a.fields.get ⟨i, h⟩).name, a.fields.get ⟨i, h⟩)
    = (none, a.fields.get ⟨i, h⟩)
  rw [show (Schema.mk a).columnRole (a.fields.get ⟨i, h⟩).name = none from hdec]

/-- Instance of claim C6's theorem: a schema whose metadata carries a
foreign value for an existing column, a role for a non-existent column and
an unrelated key is accepted; the first column's role decodes to none. -/
theorem c6_foreign_metadata_tolerance_witness :
    Schema.try_from_arrow ⟨[⟨"tag_col", .Utf8, true⟩],
        [("tag_col", "something_other_than_iox"),
         ("non_existent_col", "iox::column_type::field::float"),
         ("iox::some::new::key", "foo")]⟩
      = .ok ⟨⟨[⟨"tag_col", .Utf8, true⟩],
        [("tag_col", "something_other_than_iox"),
         ("non_existent_col", "iox::column_type::field::float"),
         ("iox::some::new::key", "foo")]⟩⟩ ∧
    (Schema.mk ⟨[⟨"tag_col", .Utf8, true⟩],
        [("tag_col", "something_other_than_iox"),
         ("non_existent_col", "iox::column_type::field::float"),
         ("iox::some::new::key", "foo")]⟩).field 0 (by decide)
      = (none, ⟨"tag_col", .Utf8, true⟩) :=
  ⟨(c6_foreign_metadata_tolerance _ (by decide) (by decide)).1,
   (c6_foreign_metadata_tolerance _ (by decide) (by decide)).2.2 0 (by decide) (by decide)⟩

/-! ### Sort lemmas -/

theorem sort_fields_by_name_def (s : Schema) :
    s.sort_fields_by_name =
      if checkSortedAux 0 (List.insertionSort sortKeyLe (enumF 0 s.inner.fields)) then s
      else ⟨⟨(List.insertionSort sortKeyLe (enumF 0 s.inner.fields)).map Prod.snd,
             s.inner.metadata⟩⟩ := rfl

theorem enumF_map_snd : ∀ (l : List ArrowField) (i : Nat), (enumF i l).map Prod.snd = l := by
  intro l
  induction l with
  | nil => intro i; rfl
  | cons f rest ih => intro i; simp [enumF, ih]

theorem enumF_length : ∀ (l : List ArrowField) (i : Nat), (enumF i l).length = l.length := by
  intro l
  induction l with
  | nil => intro i; rfl
  | cons f rest ih => intro i; simp [enumF, ih]

theorem enumF_map_fst : ∀ (l : List ArrowField) (i : Nat),
    (enumF i l).map Prod.fst = List.range' i l.length := by
  intro l
  induction l with
  | nil => intro i; rfl
  | cons f rest ih => intro i; simp [enumF, ih, List.range']

theorem mem_enumF : ∀ {l : List ArrowField} {i : Nat} {p : Nat × ArrowField},
    p ∈ enumF i l → i ≤ p.1 ∧ p.2 ∈ l := by
  intro l
  induction l with
  | nil => intro i p hp; cases hp
  | cons f rest ih =>
    intro i p hp
    rcases List.mem_cons.mp hp with rfl | hp2
    · exact ⟨Nat.le_refl i, List.mem_cons_self _ _⟩
    · obtain ⟨h1, h2⟩ := ih hp2
      exact ⟨Nat.le_of_succ_le h1, List.mem_cons_of_mem _ h2⟩

theorem enumF_sorted {l : List ArrowField}
    (h : l.Pairwise (fun a b => a.name ≤ b.name)) :
    ∀ i : Nat, (enumF i l).Pairwise sortKeyLe := by
  induction l with
  | nil => intro i; exact List.Pairwise.nil
  | cons f rest ih =>
    rw [List.pairwise_cons] at h
    intro i
    refine List.Pairwise.cons ?_ (ih h.2 (i + 1))
    intro p hp
    obtain ⟨hip, hmem⟩ := mem_enumF hp
    rcases lt_or_eq_of_le (h.1 p.2 hmem) with hlt | heq
    · exact Or.inl hlt
    · exact Or.inr ⟨heq, Nat.le_trans (Nat.le_succ i) hip⟩

theorem checkSortedAux_enumF : ∀ (l : List ArrowField) (i : Nat),
    checkSortedAux i (enumF i l) = true := by
  intro l
  induction l with
  | nil => intro i; rfl
  | cons f rest ih => intro i; simp [enumF, checkSortedAux, ih]

theorem checkSortedAux_map_fst : ∀ (p : List (Nat × ArrowField)) (i : Nat),
    checkSortedAux i p = true → p.map Prod.fst = List.range' i p.length := by
  intro p
  induction p with
  | nil => intro i _; rfl
  | cons q rest ih =>
    intro i h
    unfold checkSortedAux at h
    rw [Bool.and_eq_true] at h
    have h1 : i = q.1 := eq_of_beq h.1
    simp [List.range', ← h1, ih (i + 1) h.2]

theorem eq_of_perm_of_map_fst : ∀ (p q : List (Nat × ArrowField)), p.Perm q →
    p.map Prod.fst = q.map Prod.fst → (q.map Prod.fst).Nodup → p = q := by
  intro p
  induction p with
  | nil =>
    intro q hp _ _
    exact hp.nil_eq
  | cons x p2 ih =>
    intro q hp hfst hnd
    cases q with
    | nil =>
      have := hp.length_eq
      simp at this
    | cons y q2 =>
      simp only [List.map_cons] at hfst hnd
      injection hfst with hxy hrest
      rw [List.nodup_cons] at hnd
      have hx : x = y := by
        have hmem : x ∈ y :: q2 := hp.mem_iff.mp (List.mem_cons_self _ _)
        rcases List.mem_cons.mp hmem with h | h
        · exact h
        · exact absurd (hxy ▸ List.mem_map_of_mem Prod.fst h) hnd.1
      subst hx
      rw [ih q2 hp.cons_inv hrest hnd.2]

theorem sorted_fast_path_eq {s : Schema}
    (h : checkSortedAux 0 (List.insertionSort sortKeyLe (enumF 0 s.inner.fields)) = true) :
    List.insertionSort sortKeyLe (enumF 0 s.inner.fields) = enumF 0 s.inner.fields := by
  refine eq_of_perm_of_map_fst _ _ (List.perm_insertionSort _ _) ?_ ?_
  · rw [checkSortedAux_map_fst _ 0 h, enumF_map_fst, List.length_insertionSort, enumF_length]
  · rw [enumF_map_fst]
    exact List.nodup_range' _ _

theorem sortKeyLe_name_le {a b : Nat × ArrowField} (h : sortKeyLe a b) :
    a.2.name ≤ b.2.name := by
  rcases h with h | ⟨h, -⟩
  · exact le_of_lt h
  · exact le_of_eq h

theorem sort_fields_metadata (s : Schema) :
    (s.sort_fields_by_name).inner.metadata = s.inner.metadata := by
  rw [sort_fields_by_name_def]
  split_ifs <;> rfl

theorem sort_fields_measurement (s : Schema) :
    (s.sort_fields_by_name).measurement = s.measurement := by
  unfold Schema.measurement
  rw [sort_fields_metadata]

theorem sort_fields_columnRole (s : Schema) (n : String) :
    (s.sort_fields_by_name).columnRole n = s.columnRole n := by
  unfold Schema.columnRole decodeRole
  rw [sort_fields_metadata]

theorem sort_fields_perm (s : Schema) :
    (s.sort_fields_by_name).inner.fields.Perm s.inner.fields := by
  rw [sort_fields_by_name_def]
  split_ifs with h
  · exact List.Perm.refl _
  · show ((List.insertionSort sortKeyLe (enumF 0 s.inner.fields)).map Prod.snd).Perm
      s.inner.fields
    have hp := (List.perm_insertionSort sortKeyLe (enumF 0 s.inner.fields)).map Prod.snd
    rwa [enumF_map_snd] at hp

theorem sort_fields_sorted (s : Schema) :
    (s.sort_fields_by_name).inner.fields.Pairwise (fun a b => a.name ≤ b.name) := by
  rw [sort_fields_by_name_def]
  split_ifs with h
  · have he := sorted_fast_path_eq h
    have hs : (enumF 0 s.inner.fields).Pairwise sortKeyLe :=
      he ▸ List.sorted_insertionSort sortKeyLe (enumF 0 s.inner.fields)
    have hm : ((enumF 0 s.inner.fields).map Prod.snd).Pairwise
        (fun a b : ArrowField => a.name ≤ b.name) :=
      List.pairwise_map.mpr (hs.imp fun hab => sortKeyLe_name_le hab)
    rwa [enumF_map_snd] at hm
  · have hm : ((List.insertionSort sortKeyLe (enumF 0 s.inner.fields)).map Prod.snd).Pairwise
        (fun a b : ArrowField => a.name ≤ b.name) :=
      List.pairwise_map.mpr
        ((List.sorted_insertionSort sortKeyLe (enumF 0 s.inner.fields)).imp
          fun hab => sortKeyLe_name_le hab)
    exact hm

theorem sort_fields_id_of_sorted {s : Schema}
    (h : s.inner.fields.Pairwise (fun a b => a.name ≤ b.name)) :
    s.sort_fields_by_name = s := by
  rw [sort_fields_by_name_def, List.Sorted.insertionSort_eq (enumF_sorted h 0),
    if_pos (checkSortedAux_enumF _ _)]

/-- Claim C8: `sort_fields_by_name` returns a schema whose columns are a
permutation of the input's in ascending lexicographic order by name (with
unique names, as every valid schema has, this pins down the stable sort
result uniquely), with the metadata map, every column's role and the
measurement unchanged; and when the input's columns are already in that
order the returned value is the input unchanged, with no rebuild of the
underlying representation. -/
theorem c8_sort_fields_by_name (s : Schema) :
    (s.sort_fields_by_name).inner.fields.Perm s.inner.fields ∧
    (s.sort_fields_by_name).inner.fields.Pairwise (fun a b => a.name ≤ b.name) ∧
    (s.sort_fields_by_name).inner.metadata = s.inner.metadata ∧
    (s.sort_fields_by_name).measurement = s.measurement ∧
    (∀ n, (s.sort_fields_by_name).columnRole n = s.columnRole n) ∧
    (s.inner.fields.Pairwise (fun a b => a.name ≤ b.name) → s.sort_fields_by_name = s) :=
  ⟨sort_fields_perm s, sort_fields_sorted s, sort_fields_metadata s,
   sort_fields_measurement s, sort_fields_columnRole s,
   fun h => sort_fields_id_of_sorted h⟩

/-- Instance of claim C8's theorem: sorting an unsorted three-column schema
produces the name-sorted permutation, and an already-sorted schema is
returned unchanged (fast path). -/
theorem c8_sort_fields_by_name_witness :
    (Schema.mk ⟨[⟨"b", .Int64, true⟩, ⟨"a", .Int64, true⟩, ⟨"c", .Int64, true⟩],
        [("m", "x")]⟩).sort_fields_by_name.inner.fields.Pairwise
      (fun a b => a.name ≤ b.name) ∧
    (Schema.mk ⟨[⟨"a", .Int64, true⟩], []⟩).sort_fields_by_name
      = Schema.mk ⟨[⟨"a", .Int64, true⟩], []⟩ :=
  ⟨(c8_sort_fields_by_name _).2.1,
   (c8_sort_fields_by_name _).2.2.2.2.2 (by simp)⟩

/-! ### Invariant (claim C4) -/

theorem new_from_parts_ok_elim {measurement : Option String} {fields : List ArrowField}
    {tag_cols : List String} {field_cols : List (String × InfluxColumnType)}
    {time_col : Option String} {s : Schema}
    (h : Schema.new_from_parts measurement fields tag_cols field_cols time_col = .ok s) :
    ∃ a, Schema.try_from_arrow a = .ok s := by
  unfold Schema.new_from_parts at h
  revert h
  cases addFieldCols (tag_cols.map fun tag_name => (tag_name, InfluxColumnType.Tag.toStr))
      field_cols with
  | error e => intro h; exact Except.noConfusion h
  | ok md1 =>
    intro h
    have h2 : (match timeColCheck md1 time_col with
               | .error e => Except.error e
               | .ok md2 =>
                 Schema.try_from_arrow ⟨fields, addMeasurement md2 measurement⟩) = .ok s := h
    clear h
    revert h2
    cases timeColCheck md1 time_col with
    | error e => intro h2; exact Except.noConfusion h2
    | ok md2 => intro h2; exact ⟨_, h2⟩

/-- Claim C4 counterexample: two schemas each accepted by `try_from_arrow`
whose `try_merge` succeeds yet produces a schema violating the invariant.
The second schema's metadata assigns the Tag role to the name of a column
it does not have; the merged metadata attaches that role to the first
schema's Int64 column, and `try_merge` builds the result without
re-running validation, so `valid_arrow_type` fails on the result. -/
theorem c4_invariant_counterexample :
    Schema.try_from_arrow ⟨[⟨"c", .Int64, true⟩], []⟩
      = .ok ⟨⟨[⟨"c", .Int64, true⟩], []⟩⟩ ∧
    Schema.try_from_arrow ⟨[⟨"d", .Utf8, true⟩], [("c", "iox::column_type::tag")]⟩
      = .ok ⟨⟨[⟨"d", .Utf8, true⟩], [("c", "iox::column_type::tag")]⟩⟩ ∧
    (Schema.mk ⟨[⟨"c", .Int64, true⟩], []⟩).try_merge
      ⟨⟨[⟨"d", .Utf8, true⟩], [("c", "iox::column_type::tag")]⟩⟩
      = .ok ⟨⟨[⟨"c", .Int64, true⟩, ⟨"d", .Utf8, true⟩], [("c", "iox::column_type::tag")]⟩⟩ ∧
    (Schema.mk ⟨[⟨"c", .Int64, true⟩, ⟨"d", .Utf8, true⟩],
        [("c", "iox::column_type::tag")]⟩).columnRole "c" = some .Tag ∧
    InfluxColumnType.Tag.valid_arrow_type .Int64 = false ∧
    ¬ SchemaInvariant ⟨⟨[⟨"c", .Int64, true⟩, ⟨"d", .Utf8, true⟩],
        [("c", "iox::column_type::tag")]⟩⟩ := by
  refine ⟨by decide, by decide, by decide, by decide, by decide, ?_⟩
  rintro ⟨-, hrole⟩
  exact absurd (hrole ⟨"c", .Int64, true⟩ (by decide) .Tag (by decide)) (by decide)

/-- Claim C4 (amended): the invariant — unique column names, and every
column whose metadata decodes to a role has exactly the role's canonical
physical type — holds for every Schema produced by `try_from_arrow` (hence
by `new_from_parts`, which funnels into it) and is preserved by
`sort_fields_by_name`; it is not, however, maintained by `try_merge`,
whose result is built without re-running validation (see the
counterexample). -/
theorem c4_invariant_construction_and_sort :
    (∀ (a : ArrowSchema) (s : Schema), Schema.try_from_arrow a = .ok s → SchemaInvariant s) ∧
    (∀ (measurement : Option String) (fields : List ArrowField) (tag_cols : List String)
       (field_cols : List (String × InfluxColumnType)) (time_col : Option String) (s : Schema),
       Schema.new_from_parts measurement fields tag_cols field_cols time_col = .ok s →
       SchemaInvariant s) ∧
    (∀ s : Schema, SchemaInvariant s → SchemaInvariant s.sort_fields_by_name) := by
  have part1 : ∀ (a : ArrowSchema) (s : Schema),
      Schema.try_from_arrow a = .ok s → SchemaInvariant s := by
    intro a s h
    obtain ⟨hnd, hok, rfl⟩ := try_from_arrow_ok_elim h
    exact ⟨hnd, (checkMetadata_ok_iff _ _).mp hok⟩
  refine ⟨part1, ?_, ?_⟩
  · intro measurement fields tag_cols field_cols time_col s h
    obtain ⟨a, ha⟩ := new_from_parts_ok_elim h
    exact part1 a s ha
  · rintro s ⟨hnd, hrole⟩
    constructor
    · exact (((sort_fields_perm s).map ArrowField.name).nodup_iff).mpr hnd
    · intro f hf r hr
      rw [sort_fields_columnRole] at hr
      exact hrole f ((sort_fields_perm s).mem_iff.mp hf) r hr

/-- Instance of claim C4's amended theorem: the invariant holds for a
concrete validated schema and for its name-sorted version. -/
theorem c4_invariant_construction_and_sort_witness :
    SchemaInvariant ⟨⟨[⟨"t", .Utf8, false⟩, ⟨"time", .Int64, false⟩],
        [("t", "iox::column_type::tag"), ("time", "iox::column_type::timestamp")]⟩⟩ ∧
    SchemaInvariant ((Schema.mk ⟨[⟨"t", .Utf8, false⟩, ⟨"time", .Int64, false⟩],
        [("t", "iox::column_type::tag"),
         ("time", "iox::column_type::timestamp")]⟩).sort_fields_by_name) :=
  ⟨c4_invariant_construction_and_sort.1
     ⟨[⟨"t", .Utf8, false⟩, ⟨"time", .Int64, false⟩],
      [("t", "iox::column_type::tag"), ("time", "iox::column_type::timestamp")]⟩ _ (by decide),
   c4_invariant_construction_and_sort.2.2 _
     (c4_invariant_construction_and_sort.1
       ⟨[⟨"t", .Utf8, false⟩, ⟨"time", .Int64, false⟩],
        [("t", "iox::column_type::tag"), ("time", "iox::column_type::timestamp")]⟩ _ (by decide))⟩

/-! ### Iteration (claim C9) -/

theorem SchemaIter_next_eq (s : Schema) (idx : Nat) :
    SchemaIter.next ⟨s, idx⟩ =
      if h : idx < s.len then some (s.field idx h, ⟨s, idx + 1⟩) else none := rfl

theorem collect_succ (n : Nat) (it : SchemaIter) :
    SchemaIter.collect (n + 1) it =
      match it.next with
      | none => []
      | some (x, it2) => (SchemaIter.collect n it2).cons x := rfl

theorem collect_eq (s : Schema) : ∀ (n idx : Nat), s.len ≤ idx + n →
    SchemaIter.collect n ⟨s, idx⟩
      = (s.inner.fields.drop idx).map (fun f => (s.columnRole f.name, f)) := by
  intro n
  induction n with
  | zero =>
    intro idx h
    have h2 : s.inner.fields.length ≤ idx := by
      simp only [Schema.len] at h
      omega
    rw [List.drop_eq_nil_of_le h2]
    rfl
  | succ n ih =>
    intro idx h
    rw [collect_succ, SchemaIter_next_eq]
    by_cases hlt : idx < s.len
    · rw [dif_pos hlt]
      show (SchemaIter.collect n ⟨s, idx + 1⟩).cons (s.field idx hlt)
          = (s.inner.fields.drop idx).map fun f => (s.columnRole f.name, f)
      have h2 : s.len ≤ idx + 1 + n := by
        simp only [Schema.len] at h ⊢
        omega
      rw [ih (idx + 1) h2, List.drop_eq_getElem_cons (show idx < s.inner.fields.length from hlt),
        List.map_cons]
      rfl
    · rw [dif_neg hlt]
      have h2 : s.inner.fields.length ≤ idx := by
        simp only [Schema.len, Nat.not_lt] at hlt
        exact hlt
      rw [List.drop_eq_nil_of_le h2]
      rfl

theorem iterList_eq (s : Schema) :
    s.iterList = s.inner.fields.map (fun f => (s.columnRole f.name, f)) := by
  unfold Schema.iterList
  rw [collect_eq s s.len 0 (Nat.le_add_left _ _)]
  rfl

/-- Claim C9: iteration consistency. The sequence yielded by `iter()` has
exactly `len()` items and its `i`-th item equals `field(i)` for every
`i < len` (the precondition under which `field` is defined); iteration is a
pure function of the schema, so independent iterator instances yield the
same sequence. -/
theorem c9_iter_consistency (s : Schema) (i : Nat) (h : i < s.len) :
    s.iterList.length = s.len ∧ s.iterList[i]? = some (s.field i h) := by
  refine ⟨?_, ?_⟩
  · rw [iterList_eq, List.length_map]
    rfl
  · rw [iterList_eq, List.getElem?_map,
      List.getElem?_eq_getElem (show i < s.inner.fields.length from h)]
    rfl

/-- Instance of claim C9's theorem at a concrete two-column schema and
index 1. -/
theorem c9_iter_consistency_witness :
    (Schema.mk ⟨[⟨"t", .Utf8, false⟩, ⟨"time", .Int64, false⟩],
        [("time", "iox::column_type::timestamp")]⟩).iterList.length
      = (Schema.mk ⟨[⟨"t", .Utf8, false⟩, ⟨"time", .Int64, false⟩],
        [("time", "iox::column_type::timestamp")]⟩).len ∧
    (Schema.mk ⟨[⟨"t", .Utf8, false⟩, ⟨"time", .Int64, false⟩],
        [("time", "iox::column_type::timestamp")]⟩).iterList[1]?
      = some ((Schema.mk ⟨[⟨"t", .Utf8, false⟩, ⟨"time", .Int64, false⟩],
        [("time", "iox::column_type::timestamp")]⟩).field 1 (by decide)) :=
  c9_iter_consistency _ 1 (by decide)

end Iox
